import Mathlib

/-!
Verification of the WienerNetze Smartmeter ingestion core
(`custom_components/wnsm/sensor.py` and `custom_components/wnsm/utils.py`).

Instants are modelled as natural numbers of microseconds since an
hour-aligned epoch (UTC for aware datetimes; the local clock for the naive
datetimes used by `utils.today`).  `Decimal` arithmetic is modelled as exact
rational arithmetic; `float` division by `1000.0` is modelled bit-exactly as
IEEE-754 binary64 round-to-nearest-even (see `pyDiv1000`).  The `while`
loop of `SmartmeterSensor._import_statistics` is embedded with an explicit
iteration budget (`fuel`); `importStatistics` supplies a budget that is
provably at least the number of iterations the source loop performs, so the
embedding and the source loop agree.
-/

namespace Wnsm

/-- Microseconds in one minute. -/
def usPerMinute : Nat := 60000000

/-- Microseconds in one hour. -/
def usPerHour : Nat := 3600000000

/-- Microseconds in 24 hours (`timedelta(hours=24)`). -/
def usPerDay : Nat := 86400000000

/-- `dt.replace(minute=0, second=0, microsecond=0)` on an instant in
microseconds (the epoch is hour-aligned, so this clears everything below
the hour). Used on `start` (sensor.py:210) and `now` (sensor.py:223). -/
def truncHour (t : Nat) : Nat := t - t % usPerHour

/-- `dt.replace(microsecond=0)` on an instant in microseconds
(sensor.py:348). -/
def truncSec (t : Nat) : Nat := t - t % 1000000

/-- The `minute` component of a datetime, from its microsecond instant
(`ts.minute`, sensor.py:251). -/
def minuteOf (t : Nat) : Nat := t / usPerMinute % 60

/-- A timestamp with zero minutes, seconds and sub-second components
(the spec's "hour-aligned"). -/
def hourAligned (t : Nat) : Prop := t % usPerHour = 0

instance (t : Nat) : Decidable (hourAligned t) := by
  unfold hourAligned; infer_instance

/-- One element of `verbrauch['values']` (sensor.py:248): a parsed
timezone-aware timestamp, an optional raw value (Wh, `None` when the
measurement is absent) and the `isEstimated` flag. -/
structure Reading where
  timestamp : Nat
  value : Option Nat
  isEstimated : Bool
deriving DecidableEq

/-- The `verbrauch` dictionary produced by `get_consumption` via
`translate_dict` (sensor.py:189, 227).  Each key may be missing from the
translated dictionary, hence the `Option` fields:
`'values' not in verbrauch` is `values = none`,
`verbrauch.get('optIn')` is `optIn` (`none` when missing), and
`verbrauch.get('consumptionMinimum') == 0` is `consumptionMinimum = some 0`. -/
structure Window where
  values : Option (List Reading)
  optIn : Option Bool
  consumptionMinimum : Option Int
  consumptionMaximum : Option Int
deriving DecidableEq

/-- `StatisticData(start=ts, sum=sum_, state=usage)` (sensor.py:277). -/
structure StatPoint where
  start : Nat
  sum : ℚ
  state : ℚ
deriving DecidableEq

/-- The readings carried by a window, `[]` when the `values` key is
missing.  Used only to state window-shape hypotheses. -/
def readingsOf (w : Window) : List Reading := w.values.getD []

/-! ### Bit-exact model of `v['value'] / 1000.0`

CPython evaluates `int / float` as correctly rounded true division in
IEEE-754 binary64, and `Decimal(float)` converts the float exactly.  For a
raw value `n : Nat` with `n ≥ 1`, the quotient `n / 1000` lies well inside
the normal range, so the result is the unique binary64 value nearest to
`n / 1000` (ties to the even significand): writing `n / 1000 = m · 2^e`
with `m ∈ [2^52, 2^53)`, the result is `roundNE m · 2^e`. -/

/-- `2 ^ e` in `ℚ` for an integer exponent, kept kernel-computable. -/
def qpow2 (e : Int) : ℚ :=
  if 0 ≤ e then ((2 ^ e.toNat : Nat) : ℚ) else 1 / ((2 ^ (-e).toNat : Nat) : ℚ)

/-- Round a rational to the nearest integer, ties to even. -/
def roundNE (q : ℚ) : Int :=
  if q - (Rat.floor q : ℚ) < 1 / 2 then Rat.floor q
  else if 1 / 2 < q - (Rat.floor q : ℚ) then Rat.floor q + 1
  else if Rat.floor q % 2 = 0 then Rat.floor q
  else Rat.floor q + 1

/-- Structural (kernel-computable) `⌊log₂ n⌋` for `n ≥ 1`; the first
argument is an iteration budget, one halving per unit. -/
def log2Aux : Nat → Nat → Nat
  | 0, _ => 0
  | fuel + 1, n => if n ≤ 1 then 0 else log2Aux fuel (n / 2) + 1

/-- `⌊log₂ n⌋` (0 for `n ≤ 1`). -/
def natLog2 (n : Nat) : Nat := log2Aux n n

/-- The binade of `n / 1000` for `n ≥ 1`: the unique `f` with
`2 ^ f ≤ n / 1000 < 2 ^ (f + 1)`.  Since `512 < 1000 < 1024`, `f` is
`natLog2 n - 10` or `natLog2 n - 9`. -/
def f64exp (n : Nat) : Int :=
  let L : Int := natLog2 n
  if (n : ℚ) / 1000 < qpow2 (L - 9) then L - 10 else L - 9

/-- The exact rational value of the binary64 float `n / 1000.0`
(sensor.py:271, `Decimal(v['value'] / 1000.0)`). -/
def pyDiv1000 (n : Nat) : ℚ :=
  if n = 0 then 0
  else
    ((roundNE ((n : ℚ) / 1000 * qpow2 (-(f64exp n - 52))) : ℚ)) * qpow2 (f64exp n - 52)

/-! ### The accumulator (`for v in verbrauch['values']`, sensor.py:248-277)

`processReadings lastTs sum vs` folds one window's readings.  `none`
models the `return` on a non-zero minute (sensor.py:256), which aborts the
whole run; otherwise it yields the points appended by this window together
with the final `last_ts` and `sum_`. -/

def processReadings : Nat → ℚ → List Reading → Option (List StatPoint × Nat × ℚ)
  | lastTs, sum, [] => some ([], lastTs, sum)
  | lastTs, sum, v :: rest =>
    if minuteOf v.timestamp ≠ 0 then Option.none
    else if v.timestamp < lastTs then processReadings lastTs sum rest
    else
      match v.value with
      | Option.none => processReadings v.timestamp sum rest
      | some n =>
        let usage := pyDiv1000 n
        (processReadings v.timestamp (sum + usage) rest).map
          (fun r => ({ start := v.timestamp, sum := sum + usage, state := usage } :: r.1, r.2))

/-- The `while start < now` loop of `_import_statistics`
(sensor.py:225-277).  `fuel` is an upper bound on the number of loop
iterations; the loop itself advances `start` by 24 hours each pass, so
`importStatistics` passes `now - start` iterations of budget, which never
runs out (each pass consumes one unit while `start < now` forces at least
`usPerDay ≥ 1` of progress).  `Option.none` models the early `return`s
(missing `'values'`, sensor.py:234; non-zero minute, sensor.py:256): the
final `async_import_statistics` write is not reached and zero points are
committed.  `some pts` models reaching the single store write with the
accumulated `statistics` list. -/
def importLoop (fetch : Nat → Window) (now : Nat) : Nat → Nat → ℚ → Option (List StatPoint)
  | 0, _, _ => some []
  | fuel + 1, start, sum =>
    if start < now then
      let w := fetch start
      let next := start + usPerDay
      match w.values with
      | Option.none => Option.none
      | some vs =>
        if w.optIn ≠ some true then importLoop fetch now fuel next sum
        else if w.consumptionMinimum = some 0 ∧ w.consumptionMaximum = some 0 then
          importLoop fetch now fuel next sum
        else
          match processReadings start sum vs with
          | Option.none => Option.none
          | some (pts, _, sum2) => (importLoop fetch now fuel next sum2).map (fun rest => pts ++ rest)
    else some []

/-- `SmartmeterSensor._import_statistics` (sensor.py:202-282): truncate
`start` and `now` to the hour, run the window loop, and — when no abort
occurred — perform the single `async_import_statistics` commit with the
accumulated points. -/
def importStatistics (fetch : Nat → Window) (nowRaw startRaw : Nat) (sum : ℚ) :
    Option (List StatPoint) :=
  let now := truncHour nowRaw
  let start := truncHour startRaw
  importLoop fetch now (now - start) start sum

/-! ### `utils.today` and the cold-start call site (sensor.py:322)

`utils.today` (utils.py:11-15) is declared with **no parameters** and
returns the start of the current day of the naive local clock:
`dt.datetime.now().replace(hour=0, minute=0, second=0, microsecond=0)`.
`localNow` is the naive local clock in microseconds since a (local)
midnight-aligned epoch. -/

/-- The body of `utils.today`. -/
def today (localNow : Nat) : Nat := localNow - localNow % usPerDay

/-- The argument `timezone.utc` passed at the call site sensor.py:322. -/
inductive PyTzArg where
  | utc
deriving DecidableEq

/-- Errors a Python call can raise before or inside the callee. -/
inductive PyCallError where
  | typeError
deriving DecidableEq

/-- Python call semantics for `def today():` — a call with any positional
argument raises `TypeError: today() takes 0 positional arguments`. -/
def callToday (args : List PyTzArg) (localNow : Nat) : Except PyCallError Nat :=
  match args with
  | [] => Except.ok (today localNow)
  | _ :: _ => Except.error PyCallError.typeError

/-! ### `async_update` (sensor.py:295-374) -/

/-- The sanitized zaehlpunkt response consulted by `is_active`
(sensor.py:284-293): the keys `active` and `smartMeterReady` may each be
absent (`none`) or carry a boolean. -/
structure ZaehlpunktInfo where
  active : Option Bool
  smartMeterReady : Option Bool
deriving DecidableEq

/-- `SmartmeterSensor.is_active` (sensor.py:284-293):
`(not ("active" in r) or r["active"]) or
 (not ("smartMeterReady" in r) or r["smartMeterReady"])`. -/
def is_active (zp : ZaehlpunktInfo) : Bool :=
  (!zp.active.isSome || zp.active.getD false) ||
    (!zp.smartMeterReady.isSome || zp.smartMeterReady.getD false)

/-- Observable outcome of one `async_update` invocation. -/
inductive UpdateOutcome where
  /-- An uncaught `TypeError` escapes `async_update` (only the cold-start
  `today(timezone.utc)` call can raise it). -/
  | typeError
  /-- Early `return` at sensor.py:351: last insert is less than 24 h old,
  the Reading Source is never contacted. -/
  | gate
  /-- `is_active` returned false: `_available = False`, no ingestion
  (sensor.py:363-366). -/
  | inactive
  /-- `_import_statistics` hit an early `return`: no store write. -/
  | aborted
  /-- `_import_statistics` reached its single `async_import_statistics`
  call with these points. -/
  | committed (pts : List StatPoint)
deriving DecidableEq

/-- The tail of `async_update` after the resume decision (sensor.py:357-371):
login, `is_active` gate, then `_import_statistics`. -/
def runIngestion (fetch : Nat → Window) (zp : ZaehlpunktInfo)
    (nowUtc start : Nat) (sum : ℚ) : UpdateOutcome :=
  if is_active zp then
    match importStatistics fetch nowUtc start sum with
    | Option.none => UpdateOutcome.aborted
    | some pts => UpdateOutcome.committed pts
  else UpdateOutcome.inactive

/-- `SmartmeterSensor.async_update` (sensor.py:295-374).  `lastStat` is the
result of `get_last_statistics` (`none`: no previous row; `some (endTs, s)`:
the single row's `end` timestamp and `sum`).  On a cold start the code
computes `today(timezone.utc) - timedelta(hours=48)` (sensor.py:322), a
call into the zero-parameter `utils.today`; on a previous row it gates when
the second-truncated `now - start` is at most 24 hours (sensor.py:344-351),
then proceeds to ingestion. -/
def asyncUpdate (fetch : Nat → Window) (zp : ZaehlpunktInfo)
    (lastStat : Option (Nat × ℚ)) (nowUtc localNow : Nat) : UpdateOutcome :=
  match lastStat with
  | Option.none =>
    match callToday [PyTzArg.utc] localNow with
    | Except.error _ => UpdateOutcome.typeError
    | Except.ok t => runIngestion fetch zp nowUtc (t - 2 * usPerDay) 0
  | some (endTs, s) =>
    if (truncSec nowUtc : Int) - (truncSec endTs : Int) ≤ (usPerDay : Int) then
      UpdateOutcome.gate
    else runIngestion fetch zp nowUtc endTs s

/-! ### `utils.py`: `strint`, `is_valid_access`, `dict_path`, `translate_dict` -/

/-- A Python value as found in the JSON-shaped API responses. -/
inductive PyVal where
  | none
  | bool (b : Bool)
  | int (n : Int)
  | str (s : String)
  | list (xs : List PyVal)
  | dict (xs : List (String × PyVal))

/-- `value is not None` test used by `translate_dict` (utils.py:75). -/
def PyVal.isNone : PyVal → Bool
  | .none => true
  | _ => false

/-- The result of `strint`: either an `int` index or the original string. -/
inductive Accessor where
  | int (n : Nat)
  | str (s : String)
deriving DecidableEq

/-- `utils.strint` (utils.py:27-33): a non-empty all-digit string becomes a
(non-negative) int, anything else stays a string.  (`str.isdigit` is true
exactly for non-empty digit strings; digits parse to the decimal value.) -/
def strint (s : String) : Accessor :=
  let cs := s.toList
  if cs ≠ [] ∧ cs.all Char.isDigit then
    Accessor.int (cs.foldl (fun n c => n * 10 + (c.toNat - 48)) 0)
  else Accessor.str s

/-- `utils.is_valid_access` (utils.py:36-45): an int accessor on a list
checks the index bound, a string accessor on a dict checks key membership,
everything else is invalid. -/
def is_valid_access (data : PyVal) (accessor : Accessor) : Bool :=
  match data, accessor with
  | PyVal.list xs, Accessor.int n => decide (n < xs.length)
  | PyVal.dict xs, Accessor.str k => xs.any (fun p => decide (p.1 = k))
  | _, _ => false

/-- Exceptions Python subscripting can raise. -/
inductive PyAccessError where
  | keyError
  | indexError
  | typeError
deriving DecidableEq

/-- Python `data[accessor]` for the shapes reachable from `dict_path`.
(Combinations rejected by `is_valid_access` are never subscripted by
`dict_path`; they are modelled as the exception Python would raise for a
mismatched or unsubscriptable access.) -/
def pySubscript (data : PyVal) (accessor : Accessor) : Except PyAccessError PyVal :=
  match data, accessor with
  | PyVal.list xs, Accessor.int n =>
    if h : n < xs.length then Except.ok (xs.get ⟨n, h⟩) else Except.error PyAccessError.indexError
  | PyVal.dict xs, Accessor.str k =>
    match xs.find? (fun p => decide (p.1 = k)) with
    | some p => Except.ok p.2
    | Option.none => Except.error PyAccessError.keyError
  | PyVal.dict _, Accessor.int _ => Except.error PyAccessError.keyError
  | _, _ => Except.error PyAccessError.typeError

/-- `path.split(".")` (utils.py:55): split on every `'.'`, keeping empty
segments. -/
def splitDotsAux : List Char → List Char → List (List Char)
  | [], cur => [cur.reverse]
  | c :: rest, cur =>
    if c = '.' then cur.reverse :: splitDotsAux rest [] else splitDotsAux rest (c :: cur)

/-- `path.split(".")` on a `String`. -/
def splitDots (s : String) : List String :=
  (splitDotsAux s.toList []).map (fun cs => String.mk cs)

/-- One step of the `reduce` in `dict_path` (utils.py:53-57):
`acc[i] if is_valid_access(acc, i) else None`, with exception
propagation. -/
def dictPathStep (acc : Except PyAccessError PyVal) (i : Accessor) : Except PyAccessError PyVal :=
  match acc with
  | Except.error e => Except.error e
  | Except.ok a => if is_valid_access a i then pySubscript a i else Except.ok PyVal.none

/-- The `try` body of `utils.dict_path` (utils.py:52-57): the `reduce` over
the strint-mapped path segments, starting from the dictionary. -/
def dict_path_raw (path : String) (dictionary : PyVal) : Except PyAccessError PyVal :=
  ((splitDots path).map strint).foldl dictPathStep (Except.ok dictionary)

/-- `utils.dict_path` (utils.py:48-62): the reduce result, with any raised
exception logged and converted to `None`. -/
def dict_path (path : String) (dictionary : PyVal) : PyVal :=
  match dict_path_raw path dictionary with
  | Except.ok v => v
  | Except.error _ => PyVal.none

/-- Python dict assignment `result[dest] = value` on an insertion-ordered
dictionary: overwrite in place if the key exists, else append. -/
def dictSet (xs : List (String × PyVal)) (k : String) (v : PyVal) : List (String × PyVal) :=
  if xs.any (fun p => decide (p.1 = k)) then
    xs.map (fun p => if p.1 = k then (k, v) else p)
  else xs ++ [(k, v)]

/-- `key in result` on the model dictionary. -/
def containsKey (xs : List (String × PyVal)) (k : String) : Bool :=
  xs.any (fun p => decide (p.1 = k))

/-- The body of the `for src, dest in attrs_list` loop of `translate_dict`
(utils.py:73-76): look the source path up and keep the destination key only
for a non-`None` value. -/
def translateStep (dictionary : PyVal) (result : List (String × PyVal))
    (sd : String × String) : List (String × PyVal) :=
  let value := dict_path sd.1 dictionary
  if value.isNone then result else dictSet result sd.2 value

/-- `utils.translate_dict` (utils.py:65-77): pick every attribute whose
source path resolves to a non-`None` value. -/
def translate_dict (dictionary : PyVal) (attrs_list : List (String × String)) :
    List (String × PyVal) :=
  attrs_list.foldl (translateStep dictionary) []

/-! ### Spec-side predicates on committed point sequences (spec §3, §8) -/

/-- Timestamps are non-decreasing and bounded below by `lb`. -/
def SortedGE : Nat → List StatPoint → Prop
  | _, [] => True
  | lb, p :: rest => lb ≤ p.start ∧ SortedGE p.start rest

/-- The timestamp of the last point (`lb` if there is none). -/
def lastStartOf : Nat → List StatPoint → Nat
  | lb, [] => lb
  | _, p :: rest => lastStartOf p.start rest

/-- Each point's `sum` is the previous `sum` plus its `state`
(spec invariant 2), starting from the carried-in `s`. -/
def Chained : ℚ → List StatPoint → Prop
  | _, [] => True
  | s, p :: rest => p.sum = s + p.state ∧ Chained p.sum rest

/-- The carried sum after appending the points (`s` if there are none). -/
def endSum : ℚ → List StatPoint → ℚ
  | s, [] => s
  | _, p :: rest => endSum p.sum rest

/-- `sum` values are non-decreasing and bounded below by `s`. -/
def SumsGE : ℚ → List StatPoint → Prop
  | _, [] => True
  | s, p :: rest => s ≤ p.sum ∧ SumsGE p.sum rest

/-- The claim's "every adjacent pair has strictly increasing timestamps". -/
def strictIncTS : List StatPoint → Bool
  | p :: q :: rest => decide (p.start < q.start) && strictIncTS (q :: rest)
  | _ => true

section

/- The Batteries `Rat` arithmetic operations are `@[irreducible]`, which
blocks `decide`-style evaluation of the model on concrete inputs; restore
their default reducibility locally for the proofs. -/
attribute [local semireducible] Rat.add Rat.mul Rat.inv Rat.sub

theorem SortedGE_mono {lb lb' : Nat} {l : List StatPoint} (h : lb ≤ lb')
    (hs : SortedGE lb' l) : SortedGE lb l := by
  cases l with
  | nil => trivial
  | cons p rest => exact ⟨le_trans h hs.1, hs.2⟩

theorem SortedGE_append {l₁ l₂ : List StatPoint} :
    ∀ {lb : Nat}, SortedGE lb l₁ → SortedGE (lastStartOf lb l₁) l₂ →
      SortedGE lb (l₁ ++ l₂) := by
  induction l₁ with
  | nil => intro lb h1 h2; exact h2
  | cons p rest ih =>
    intro lb h1 h2
    exact ⟨h1.1, ih h1.2 h2⟩

theorem Chained_append {l₁ l₂ : List StatPoint} :
    ∀ {s : ℚ}, Chained s l₁ → Chained (endSum s l₁) l₂ → Chained s (l₁ ++ l₂) := by
  induction l₁ with
  | nil => intro s h1 h2; exact h2
  | cons p rest ih =>
    intro s h1 h2
    exact ⟨h1.1, ih h1.2 h2⟩

theorem SumsGE_of_Chained {l : List StatPoint} :
    ∀ {s : ℚ}, Chained s l → (∀ p ∈ l, 0 ≤ p.state) → SumsGE s l := by
  induction l with
  | nil => intro s _ _; trivial
  | cons p rest ih =>
    intro s hc hst
    refine ⟨?_, ih hc.2 (fun q hq => hst q (List.mem_cons_of_mem _ hq))⟩
    have h0 : (0 : ℚ) ≤ p.state := hst p (List.mem_cons_self _ _)
    calc s ≤ s + p.state := le_add_of_nonneg_right h0
    _ = p.sum := hc.1.symm

theorem qpow2_pos (e : Int) : 0 < qpow2 e := by
  unfold qpow2
  split
  · exact_mod_cast Nat.pos_pow_of_pos _ (by norm_num)
  · refine div_pos one_pos ?_
    exact_mod_cast Nat.pos_pow_of_pos _ (by norm_num)

theorem roundNE_nonneg (q : ℚ) (h : 0 ≤ q) : 0 ≤ roundNE q := by
  have hk : (0 : Int) ≤ Rat.floor q := Rat.le_floor.mpr (by exact_mod_cast h)
  unfold roundNE
  split
  · exact hk
  · split
    · omega
    · split
      · exact hk
      · omega

theorem pyDiv1000_nonneg (n : Nat) : 0 ≤ pyDiv1000 n := by
  unfold pyDiv1000
  split
  · exact le_refl 0
  · refine mul_nonneg ?_ (le_of_lt (qpow2_pos _))
    have h : (0 : ℚ) ≤ (n : ℚ) / 1000 * qpow2 (-(f64exp n - 52)) :=
      mul_nonneg (div_nonneg (Nat.cast_nonneg n) (by norm_num)) (le_of_lt (qpow2_pos _))
    exact_mod_cast roundNE_nonneg _ h

/-- Invariants of one window fold: under an upper bound `B` on the window's
reading timestamps, the emitted points are sorted above the initial
`last_ts`, chained in `sum`, their states are non-negative, and the final
`last_ts` stays below `B`. -/
theorem processReadings_inv (B : Nat) :
    ∀ (vs : List Reading) (lastTs : Nat) (sum : ℚ) (pts : List StatPoint)
      (lt2 : Nat) (sum2 : ℚ),
      processReadings lastTs sum vs = some (pts, lt2, sum2) →
      (∀ v ∈ vs, v.timestamp ≤ B) → lastTs ≤ B →
      SortedGE lastTs pts ∧ Chained sum pts ∧ endSum sum pts = sum2 ∧
        lastStartOf lastTs pts ≤ lt2 ∧ lt2 ≤ B ∧ (∀ p ∈ pts, 0 ≤ p.state) := by
  intro vs
  induction vs with
  | nil =>
    intro lastTs sum pts lt2 sum2 h _ hle
    simp only [processReadings, Option.some.injEq, Prod.mk.injEq] at h
    obtain ⟨h1, h2, h3⟩ := h
    subst h1; subst h2; subst h3
    exact ⟨trivial, trivial, rfl, le_refl _, hle, fun p hp => absurd hp (List.not_mem_nil p)⟩
  | cons v rest ih =>
    intro lastTs sum pts lt2 sum2 h hb hle
    have hvB : v.timestamp ≤ B := hb v (List.mem_cons_self _ _)
    have hbRest : ∀ x ∈ rest, x.timestamp ≤ B := fun x hx => hb x (List.mem_cons_of_mem _ hx)
    simp only [processReadings] at h
    split at h
    · exact absurd h (by simp)
    next hm =>
      split at h
      next hlt => exact ih lastTs sum pts lt2 sum2 h hbRest hle
      next hge =>
        have hts : lastTs ≤ v.timestamp := Nat.le_of_not_lt hge
        split at h
        next hval =>
          obtain ⟨hs, hc, he, hl, hb2, hst⟩ := ih v.timestamp sum pts lt2 sum2 h hbRest hvB
          exact ⟨SortedGE_mono hts hs, hc, he,
            le_trans (by
              cases pts with
              | nil => exact hts
              | cons p r => exact le_refl _) hl,
            hb2, hst⟩
        next n hval =>
          rw [Option.map_eq_some'] at h
          obtain ⟨⟨pts', lt2', sum2'⟩, hrec, hmk⟩ := h
          simp only [Prod.mk.injEq] at hmk
          obtain ⟨hpts, hlt2, hsum2⟩ := hmk
          subst hpts; subst hlt2; subst hsum2
          obtain ⟨hs, hc, he, hl, hb2, hst⟩ :=
            ih v.timestamp (sum + pyDiv1000 n) pts' lt2' sum2' hrec hbRest hvB
          refine ⟨⟨hts, hs⟩, ⟨rfl, hc⟩, he, ?_, hb2, ?_⟩
          · exact hl
          · intro p hp
            rcases List.mem_cons.mp hp with hp | hp
            · subst hp; exact pyDiv1000_nonneg n
            · exact hst p hp

/-- Invariants of the whole window loop, under the window contract that a
window fetched for `t` only carries readings up to `t + 24 h`: the whole
committed list is sorted above the initial cursor, chained in the carried
sum, and has non-negative states. -/
theorem importLoop_inv (fetch : Nat → Window)
    (hb : ∀ t v, v ∈ readingsOf (fetch t) → v.timestamp ≤ t + usPerDay) (now : Nat) :
    ∀ (fuel start : Nat) (sum : ℚ) (pts : List StatPoint),
      importLoop fetch now fuel start sum = some pts →
      SortedGE start pts ∧ Chained sum pts ∧ (∀ p ∈ pts, 0 ≤ p.state) := by
  intro fuel
  induction fuel with
  | zero =>
    intro start sum pts h
    simp only [importLoop, Option.some.injEq] at h
    subst h
    exact ⟨trivial, trivial, fun p hp => absurd hp (List.not_mem_nil p)⟩
  | succ fuel ih =>
    intro start sum pts h
    simp only [importLoop] at h
    split at h
    next hnow =>
      split at h
      · exact absurd h (by simp)
      next vs hvs =>
        split at h
        next hopt =>
          obtain ⟨hs, hc, hst⟩ := ih (start + usPerDay) sum pts h
          exact ⟨SortedGE_mono (Nat.le_add_right _ _) hs, hc, hst⟩
        next hopt =>
          split at h
          next hmm =>
            obtain ⟨hs, hc, hst⟩ := ih (start + usPerDay) sum pts h
            exact ⟨SortedGE_mono (Nat.le_add_right _ _) hs, hc, hst⟩
          next hmm =>
            split at h
            · exact absurd h (by simp)
            next ptsW lt2 sum2 hpr =>
              rw [Option.map_eq_some'] at h
              obtain ⟨pts2, hrec, hmk⟩ := h
              subst hmk
              have hvsB : ∀ v ∈ vs, v.timestamp ≤ start + usPerDay := by
                intro v hv
                have := hb start v
                rw [readingsOf, hvs] at this
                exact this hv
              obtain ⟨hsW, hcW, heW, hlW, hbW, hstW⟩ :=
                processReadings_inv (start + usPerDay) vs start sum ptsW lt2 sum2 hpr
                  hvsB (Nat.le_add_right _ _)
              obtain ⟨hs2, hc2, hst2⟩ := ih (start + usPerDay) sum2 pts2 hrec
              refine ⟨SortedGE_append hsW ?_, Chained_append hcW (heW ▸ hc2), ?_⟩
              · exact SortedGE_mono (le_trans hlW hbW) hs2
              · intro p hp
                rcases List.mem_append.mp hp with hp | hp
                · exact hstW p hp
                · exact hst2 p hp
    next hnow =>
      simp only [Option.some.injEq] at h
      subst h
      exact ⟨trivial, trivial, fun p hp => absurd hp (List.not_mem_nil p)⟩

/-- Every point emitted by the window fold carries a zero-minute timestamp
(the fold aborts on the first non-zero minute before emitting it). -/
theorem processReadings_minutes :
    ∀ (vs : List Reading) (lastTs : Nat) (sum : ℚ) (pts : List StatPoint)
      (lt2 : Nat) (sum2 : ℚ),
      processReadings lastTs sum vs = some (pts, lt2, sum2) →
      ∀ p ∈ pts, minuteOf p.start = 0 := by
  intro vs
  induction vs with
  | nil =>
    intro lastTs sum pts lt2 sum2 h
    simp only [processReadings, Option.some.injEq, Prod.mk.injEq] at h
    rw [← h.1]
    exact fun p hp => absurd hp (List.not_mem_nil p)
  | cons v rest ih =>
    intro lastTs sum pts lt2 sum2 h
    simp only [processReadings] at h
    split at h
    · exact absurd h (by simp)
    next hm =>
      rw [not_not] at hm
      split at h
      next hlt => exact ih lastTs sum pts lt2 sum2 h
      next hge =>
        split at h
        next hval => exact ih v.timestamp sum pts lt2 sum2 h
        next n hval =>
          rw [Option.map_eq_some'] at h
          obtain ⟨⟨pts', lt2', sum2'⟩, hrec, hmk⟩ := h
          simp only [Prod.mk.injEq] at hmk
          rw [← hmk.1]
          intro p hp
          rcases List.mem_cons.mp hp with hp | hp
          · subst hp; exact hm
          · exact ih v.timestamp (sum + pyDiv1000 n) pts' lt2' sum2' hrec p hp

/-- Every point the loop commits carries a zero-minute timestamp. -/
theorem importLoop_minutes (fetch : Nat → Window) (now : Nat) :
    ∀ (fuel start : Nat) (sum : ℚ) (pts : List StatPoint),
      importLoop fetch now fuel start sum = some pts →
      ∀ p ∈ pts, minuteOf p.start = 0 := by
  intro fuel
  induction fuel with
  | zero =>
    intro start sum pts h
    simp only [importLoop, Option.some.injEq] at h
    subst h
    exact fun p hp => absurd hp (List.not_mem_nil p)
  | succ fuel ih =>
    intro start sum pts h
    simp only [importLoop] at h
    split at h
    next hnow =>
      split at h
      · exact absurd h (by simp)
      next vs hvs =>
        split at h
        next hopt => exact ih (start + usPerDay) sum pts h
        next hopt =>
          split at h
          next hmm => exact ih (start + usPerDay) sum pts h
          next hmm =>
            split at h
            · exact absurd h (by simp)
            next ptsW lt2 sum2 hpr =>
              rw [Option.map_eq_some'] at h
              obtain ⟨pts2, hrec, hmk⟩ := h
              subst hmk
              intro p hp
              rcases List.mem_append.mp hp with hp | hp
              · exact processReadings_minutes vs start sum ptsW lt2 sum2 hpr p hp
              · exact ih (start + usPerDay) sum2 pts2 hrec p hp
    next hnow =>
      simp only [Option.some.injEq] at h
      subst h
      exact fun p hp => absurd hp (List.not_mem_nil p)

/-- A window fold over readings containing a non-zero-minute timestamp
always aborts. -/
theorem processReadings_none_of_misaligned :
    ∀ (vs : List Reading) (lastTs : Nat) (sum : ℚ),
      (∃ v ∈ vs, minuteOf v.timestamp ≠ 0) →
      processReadings lastTs sum vs = Option.none := by
  intro vs
  induction vs with
  | nil =>
    intro lastTs sum h
    obtain ⟨v, hv, _⟩ := h
    exact absurd hv (List.not_mem_nil v)
  | cons v rest ih =>
    intro lastTs sum h
    simp only [processReadings]
    by_cases hm : minuteOf v.timestamp ≠ 0
    · rw [if_pos hm]
    · rw [if_neg hm]
      have hrest : ∃ x ∈ rest, minuteOf x.timestamp ≠ 0 := by
        obtain ⟨x, hx, hxm⟩ := h
        rcases List.mem_cons.mp hx with hx | hx
        · subst hx; exact absurd hxm hm
        · exact ⟨x, hx, hxm⟩
      split
      · exact ih lastTs sum hrest
      · split
        · exact ih v.timestamp sum hrest
        · rw [ih v.timestamp _ hrest]; rfl

/-- If the `k`-th traversed window has no `'values'` key, the loop result
is `none` (either that window's missing-values `return` fires, or an
earlier window already aborted the run). -/
theorem importLoop_none_of_missing_values (fetch : Nat → Window) (now : Nat) :
    ∀ (k fuel start : Nat) (sum : ℚ),
      start + k * usPerDay < now → k < fuel →
      (fetch (start + k * usPerDay)).values = Option.none →
      importLoop fetch now fuel start sum = Option.none := by
  intro k
  induction k with
  | zero =>
    intro fuel start sum ht hf hv
    obtain ⟨fuel, rfl⟩ : ∃ f, fuel = f + 1 := ⟨fuel - 1, by omega⟩
    simp only [Nat.zero_mul, Nat.add_zero] at ht hv
    simp only [importLoop, if_pos ht, hv]
  | succ k ih =>
    intro fuel start sum ht hf hv
    obtain ⟨fuel, rfl⟩ : ∃ f, fuel = f + 1 := ⟨fuel - 1, by omega⟩
    have hlt : start < now := by
      have : start ≤ start + (k + 1) * usPerDay := Nat.le_add_right _ _
      omega
    have harith : start + usPerDay + k * usPerDay = start + (k + 1) * usPerDay := by ring
    simp only [importLoop, if_pos hlt]
    split
    · rfl
    next vs hvs =>
      split
      next hopt => exact ih fuel (start + usPerDay) sum (by omega) (by omega) (by rw [harith]; exact hv)
      next hopt =>
        split
        next hmm => exact ih fuel (start + usPerDay) sum (by omega) (by omega) (by rw [harith]; exact hv)
        next hmm =>
          split
          · rfl
          next ptsW lt2 sum2 hpr =>
            rw [ih fuel (start + usPerDay) sum2 (by omega) (by omega) (by rw [harith]; exact hv)]
            rfl

/-- If the `k`-th traversed window is actually processed (values present,
opted in, not skipped as empty) and contains a reading with a non-zero
minute, the loop result is `none`. -/
theorem importLoop_none_of_misaligned (fetch : Nat → Window) (now : Nat) :
    ∀ (k fuel start : Nat) (sum : ℚ) (vs : List Reading),
      start + k * usPerDay < now → k < fuel →
      (fetch (start + k * usPerDay)).values = some vs →
      (fetch (start + k * usPerDay)).optIn = some true →
      ¬((fetch (start + k * usPerDay)).consumptionMinimum = some 0 ∧
        (fetch (start + k * usPerDay)).consumptionMaximum = some 0) →
      (∃ v ∈ vs, minuteOf v.timestamp ≠ 0) →
      importLoop fetch now fuel start sum = Option.none := by
  intro k
  induction k with
  | zero =>
    intro fuel start sum vs ht hf hv hopt hmm hex
    obtain ⟨fuel, rfl⟩ : ∃ f, fuel = f + 1 := ⟨fuel - 1, by omega⟩
    simp only [Nat.zero_mul, Nat.add_zero] at ht hv hopt hmm
    simp only [importLoop, if_pos ht, hv]
    rw [if_neg (by simp [hopt]), if_neg hmm,
      processReadings_none_of_misaligned vs start sum hex]
  | succ k ih =>
    intro fuel start sum vs ht hf hv hopt hmm hex
    obtain ⟨fuel, rfl⟩ : ∃ f, fuel = f + 1 := ⟨fuel - 1, by omega⟩
    have hlt : start < now := by
      have : start ≤ start + (k + 1) * usPerDay := Nat.le_add_right _ _
      omega
    have harith : start + usPerDay + k * usPerDay = start + (k + 1) * usPerDay := by ring
    simp only [importLoop, if_pos hlt]
    split
    · rfl
    next vs0 hvs0 =>
      split
      next hopt0 =>
        exact ih fuel (start + usPerDay) sum vs (by omega) (by omega)
          (by rw [harith]; exact hv) (by rw [harith]; exact hopt) (by rw [harith]; exact hmm) hex
      next hopt0 =>
        split
        next hmm0 =>
          exact ih fuel (start + usPerDay) sum vs (by omega) (by omega)
            (by rw [harith]; exact hv) (by rw [harith]; exact hopt) (by rw [harith]; exact hmm) hex
        next hmm0 =>
          split
          · rfl
          next ptsW lt2 sum2 hpr =>
            rw [ih fuel (start + usPerDay) sum2 vs (by omega) (by omega)
              (by rw [harith]; exact hv) (by rw [harith]; exact hopt) (by rw [harith]; exact hmm) hex]
            rfl

/-! ### Claim theorems -/

/-- Claim C1: if any fetched window of the run lacks the `'values'` key,
`_import_statistics` returns at sensor.py:234 before its single
`async_import_statistics` write, so the run commits zero points — including
points accumulated from windows processed earlier in the run.  `k` indexes
the traversed window starts (`truncHour start + k·24h`, all below
`truncHour now`). -/
theorem c1_missing_values_commits_nothing (fetch : Nat → Window)
    (nowRaw startRaw : Nat) (sum : ℚ) (k : Nat)
    (ht : truncHour startRaw + k * usPerDay < truncHour nowRaw)
    (hv : (fetch (truncHour startRaw + k * usPerDay)).values = Option.none) :
    importStatistics fetch nowRaw startRaw sum = Option.none := by
  unfold importStatistics
  refine importLoop_none_of_missing_values fetch (truncHour nowRaw) k
    (truncHour nowRaw - truncHour startRaw) (truncHour startRaw) sum ht ?_ hv
  simp only [usPerDay] at ht
  omega

/-- Fetch for the C1 witness: a fully valid first window (whose points
would be accumulated), then a window with no `'values'` key. -/
def c1Fetch : Nat → Window := fun t =>
  if t = 0 then
    { values := some [⟨0, some 500, false⟩], optIn := some true,
      consumptionMinimum := some 1, consumptionMaximum := some 1 }
  else
    { values := Option.none, optIn := some true,
      consumptionMinimum := some 1, consumptionMaximum := some 1 }

/-- Witness for C1: a 48-hour run whose first window is valid and whose
second window lacks `'values'` commits nothing. -/
theorem c1_witness : importStatistics c1Fetch 172800000000 0 0 = Option.none :=
  c1_missing_values_commits_nothing c1Fetch 172800000000 0 0 1 (by decide) (by decide)

/-- Fetch for the C2 counterexample: one window carrying two readings with
the same (hour-aligned) timestamp. -/
def c2Fetch : Nat → Window := fun _ =>
  { values := some [⟨3600000000, some 500, false⟩, ⟨3600000000, some 500, false⟩],
    optIn := some true, consumptionMinimum := some 5, consumptionMaximum := some 5 }

/-- Counterexample to C2 as stated: the out-of-order guard at sensor.py:257
drops only *strictly* older readings (`ts < last_ts`), so two readings with
equal timestamps are both committed and the committed sequence does not
have strictly increasing timestamps. -/
theorem c2_counterexample :
    importStatistics c2Fetch 3600000000 0 0 =
      some [⟨3600000000, 1 / 2, 1 / 2⟩, ⟨3600000000, 1, 1 / 2⟩] ∧
    strictIncTS [⟨3600000000, 1 / 2, 1 / 2⟩, ⟨3600000000, 1, 1 / 2⟩] = false :=
  ⟨by decide, by decide⟩

/-- Claim C2, amended: under the window contract (each fetched window's
readings lie within 24 h of its requested start), a committed run has
*non-decreasing* adjacent timestamps (equal timestamps are possible),
`sum[i] = sum[i-1] + state[i]` from the carried-in sum, and `sum` is
non-decreasing.  (`Decimal` addition is modelled as exact rational
addition.) -/
theorem c2_committed_run_invariants (fetch : Nat → Window) (nowRaw startRaw : Nat)
    (sum : ℚ) (pts : List StatPoint)
    (hb : ∀ t v, v ∈ readingsOf (fetch t) → v.timestamp ≤ t + usPerDay)
    (hrun : importStatistics fetch nowRaw startRaw sum = some pts) :
    SortedGE (truncHour startRaw) pts ∧ Chained sum pts ∧ SumsGE sum pts := by
  unfold importStatistics at hrun
  obtain ⟨hs, hc, hst⟩ := importLoop_inv fetch hb (truncHour nowRaw) _ _ _ _ hrun
  exact ⟨hs, hc, SumsGE_of_Chained hc hst⟩

/-- Fetch for the C2 witness: a single one-reading window. -/
def c2wFetch : Nat → Window := fun _ =>
  { values := some [⟨3600000000, some 500, false⟩], optIn := some true,
    consumptionMinimum := some 1, consumptionMaximum := some 1 }

/-- Witness for the amended C2 at a concrete committed run. -/
theorem c2_witness :
    SortedGE (truncHour 0) [⟨3600000000, 1 / 2, 1 / 2⟩] ∧
      Chained 0 [⟨3600000000, 1 / 2, 1 / 2⟩] ∧ SumsGE 0 [⟨3600000000, 1 / 2, 1 / 2⟩] :=
  c2_committed_run_invariants c2wFetch 3600000000 0 0 [⟨3600000000, 1 / 2, 1 / 2⟩]
    (fun t v hv => by
      simp only [readingsOf, c2wFetch, Option.getD, List.mem_singleton] at hv
      subst hv
      simp only [usPerDay]
      omega)
    (by decide)

/-- Fetch for the C3 counterexample: a reading 30 seconds past the hour
(zero minutes, non-zero seconds). -/
def c3Fetch : Nat → Window := fun _ =>
  { values := some [⟨30000000, some 500, false⟩], optIn := some true,
    consumptionMinimum := some 1, consumptionMaximum := some 1 }

/-- Counterexample to C3 as stated: sensor.py:251 checks only `ts.minute`,
so a reading 30 s past the hour is committed (its timestamp is not
hour-aligned) and it does not terminate the run. -/
theorem c3_counterexample :
    importStatistics c3Fetch 3600000000 0 0 = some [⟨30000000, 1 / 2, 1 / 2⟩] ∧
      ¬ hourAligned 30000000 :=
  ⟨by decide, by decide⟩

/-- Claim C3, amended: every committed timestamp has a zero *minute*
component (seconds and sub-seconds are not checked), and a reading whose
minute component is non-zero in a processed window terminates the entire
run with no commit. -/
theorem c3_minute_alignment (fetch : Nat → Window) (nowRaw startRaw : Nat) (sum : ℚ) :
    (∀ pts, importStatistics fetch nowRaw startRaw sum = some pts →
        ∀ p ∈ pts, minuteOf p.start = 0) ∧
    (∀ (k : Nat) (vs : List Reading),
        truncHour startRaw + k * usPerDay < truncHour nowRaw →
        (fetch (truncHour startRaw + k * usPerDay)).values = some vs →
        (fetch (truncHour startRaw + k * usPerDay)).optIn = some true →
        ¬((fetch (truncHour startRaw + k * usPerDay)).consumptionMinimum = some 0 ∧
          (fetch (truncHour startRaw + k * usPerDay)).consumptionMaximum = some 0) →
        (∃ v ∈ vs, minuteOf v.timestamp ≠ 0) →
        importStatistics fetch nowRaw startRaw sum = Option.none) := by
  constructor
  · intro pts h
    unfold importStatistics at h
    exact importLoop_minutes fetch (truncHour nowRaw) _ _ _ pts h
  · intro k vs ht hv hopt hmm hex
    unfold importStatistics
    refine importLoop_none_of_misaligned fetch (truncHour nowRaw) k
      (truncHour nowRaw - truncHour startRaw) (truncHour startRaw) sum vs ht ?_ hv hopt hmm hex
    simp only [usPerDay] at ht
    omega

/-- Fetch for the C3 witness: a reading at 03:07 (non-zero minute). -/
def c3wFetch : Nat → Window := fun _ =>
  { values := some [⟨11220000000, some 500, false⟩], optIn := some true,
    consumptionMinimum := some 1, consumptionMaximum := some 1 }

/-- Witness for the amended C3: a run hitting a 03:07 reading commits
nothing. -/
theorem c3_witness : importStatistics c3wFetch 86400000000 0 0 = Option.none :=
  (c3_minute_alignment c3wFetch 86400000000 0 0).2 0 [⟨11220000000, some 500, false⟩]
    (by decide) (by decide) (by decide) (by decide) (by decide)

/-- Claim C4 (code bug): on a cold start (no previously committed point)
`async_update` evaluates `today(timezone.utc)` (sensor.py:322), but
`utils.today` (utils.py:11) takes no parameters, so the call raises
`TypeError` and no ingestion happens — the claimed
`start = today(UTC) − 48h` resume is never produced. -/
theorem c4_cold_start_type_error (fetch : Nat → Window) (zp : ZaehlpunktInfo)
    (nowUtc localNow : Nat) :
    asyncUpdate fetch zp Option.none nowUtc localNow = UpdateOutcome.typeError := rfl

/-- Claim C5: when the last committed point's `end` timestamp is within
24 h of now, `async_update` returns at sensor.py:351 (`Gate`) — for every
possible fetch function, so the Reading Source is never consulted. -/
theorem c5_gate_within_24h (fetch : Nat → Window) (zp : ZaehlpunktInfo)
    (endTs : Nat) (s : ℚ) (nowUtc localNow : Nat)
    (h : (nowUtc : Int) - (endTs : Int) ≤ (usPerDay : Int)) :
    asyncUpdate fetch zp (some (endTs, s)) nowUtc localNow = UpdateOutcome.gate := by
  have hc : (truncSec nowUtc : Int) - (truncSec endTs : Int) ≤ (usPerDay : Int) := by
    simp only [truncSec, usPerDay] at h ⊢
    omega
  simp only [asyncUpdate, if_pos hc]

/-- Witness for C5 at a concrete 24-hour-old checkpoint. -/
theorem c5_witness :
    asyncUpdate (fun _ => ⟨Option.none, Option.none, Option.none, Option.none⟩)
      ⟨some true, some true⟩ (some (0, 0)) 86400000000 0 = UpdateOutcome.gate :=
  c5_gate_within_24h (fun _ => ⟨Option.none, Option.none, Option.none, Option.none⟩)
    ⟨some true, some true⟩ 0 0 86400000000 0 (by decide)

/-- Counterexample to C6 as stated: the minute check (sensor.py:251)
precedes the out-of-order check (sensor.py:257), so an out-of-order reading
with a non-zero minute (03:07 after 05:00) aborts the whole fold instead of
being dropped with processing continuing — dropping it would have produced
the second reading's point. -/
theorem c6_counterexample :
    processReadings 18000000000 0
        [⟨11220000000, some 500, false⟩, ⟨21600000000, some 500, false⟩] = Option.none ∧
      processReadings 18000000000 0 [⟨21600000000, some 500, false⟩] =
        some ([⟨21600000000, 1 / 2, 1 / 2⟩], 21600000000, 1 / 2) :=
  ⟨by decide, by decide⟩

/-- Claim C6, amended: a reading with a *zero minute component* whose
timestamp is strictly below the carried `last_ts` is dropped: nothing is
emitted, neither `last_ts` nor `sum` changes, and the fold continues with
the remaining readings. -/
theorem c6_out_of_order_dropped (lastTs : Nat) (sum : ℚ) (v : Reading)
    (rest : List Reading) (h1 : minuteOf v.timestamp = 0) (h2 : v.timestamp < lastTs) :
    processReadings lastTs sum (v :: rest) = processReadings lastTs sum rest := by
  simp only [processReadings]
  rw [if_neg (by simp [h1]), if_pos h2]

/-- Witness for the amended C6. -/
theorem c6_witness :
    processReadings 7200000000 0 [⟨3600000000, some 500, false⟩] =
      processReadings 7200000000 0 [] :=
  c6_out_of_order_dropped 7200000000 0 ⟨3600000000, some 500, false⟩ [] (by decide) (by decide)

/-- Claim C7: a reading with an absent value (sensor.py:263) emits no
point and leaves `sum` unchanged — the fold continues as if only the
out-of-order bar had moved — and a following valid reading accumulates
from that unchanged `sum` (nothing is synthesized for the gap). -/
theorem c7_absent_value_skips (lastTs : Nat) (sum : ℚ) (v : Reading)
    (rest : List Reading) (h1 : minuteOf v.timestamp = 0)
    (h2 : ¬ v.timestamp < lastTs) (h3 : v.value = Option.none) :
    processReadings lastTs sum (v :: rest) = processReadings v.timestamp sum rest ∧
    (∀ (v2 : Reading) (rest2 : List Reading) (n : Nat),
        rest = v2 :: rest2 → minuteOf v2.timestamp = 0 →
        ¬ v2.timestamp < v.timestamp → v2.value = some n →
        processReadings lastTs sum (v :: rest) =
          (processReadings v2.timestamp (sum + pyDiv1000 n) rest2).map
            (fun r => (⟨v2.timestamp, sum + pyDiv1000 n, pyDiv1000 n⟩ :: r.1, r.2))) := by
  have hskip : processReadings lastTs sum (v :: rest) = processReadings v.timestamp sum rest := by
    simp only [processReadings]
    rw [if_neg (by simp [h1]), if_neg h2, h3]
  refine ⟨hskip, ?_⟩
  intro v2 rest2 n hrest hm2 hlt2 hval2
  subst hrest
  rw [hskip]
  simp only [processReadings]
  rw [if_neg (by simp [hm2]), if_neg hlt2, hval2]

/-- Witness for C7: an absent-valued reading followed by a valid one. -/
theorem c7_witness :
    processReadings 0 0 [⟨0, Option.none, false⟩, ⟨3600000000, some 500, false⟩] =
      (processReadings 3600000000 (0 + pyDiv1000 500) []).map
        (fun r => (⟨3600000000, 0 + pyDiv1000 500, pyDiv1000 500⟩ :: r.1, r.2)) :=
  (c7_absent_value_skips 0 0 ⟨0, Option.none, false⟩ [⟨3600000000, some 500, false⟩]
      (by decide) (by decide) rfl).2
    ⟨3600000000, some 500, false⟩ [] 500 rfl (by decide) (by decide) rfl

/-- Fetch for the C8 counterexample: one reading with raw value 100. -/
def c8Fetch : Nat → Window := fun _ =>
  { values := some [⟨0, some 100, false⟩], optIn := some true,
    consumptionMinimum := some 1, consumptionMaximum := some 1 }

/-- Counterexample to C8 as stated: the committed state for raw value 100
is `Decimal(100 / 1000.0)` — the binary64 float `0.1` converted exactly —
which is *not* the exact decimal quotient `100 / 1000 = 1/10`
(sensor.py:271 divides in float arithmetic before converting). -/
theorem c8_counterexample :
    importStatistics c8Fetch 3600000000 0 0 = some [⟨0, pyDiv1000 100, pyDiv1000 100⟩] ∧
      pyDiv1000 100 ≠ (100 : ℚ) / 1000 :=
  ⟨by decide, by decide⟩

/-- Fetch for Scenario B of C8: ten hourly readings of raw value 500, then
an entirely absent-valued window. -/
def scenarioBFetch : Nat → Window := fun t =>
  if t = 0 then
    { values := some ((List.range 10).map (fun i => ⟨i * 3600000000, some 500, false⟩)),
      optIn := some true, consumptionMinimum := some 1, consumptionMaximum := some 1 }
  else
    { values := some [⟨86400000000, Option.none, false⟩, ⟨90000000000, Option.none, false⟩],
      optIn := some true, consumptionMinimum := some 1, consumptionMaximum := some 1 }

/-- The ten points Scenario B commits (500 Wh → 0.5 kWh each, exactly
representable in binary64; final sum 5.0). -/
def scenarioBPoints : List StatPoint :=
  [⟨0, 1 / 2, 1 / 2⟩, ⟨3600000000, 1, 1 / 2⟩, ⟨7200000000, 3 / 2, 1 / 2⟩,
   ⟨10800000000, 2, 1 / 2⟩, ⟨14400000000, 5 / 2, 1 / 2⟩, ⟨18000000000, 3, 1 / 2⟩,
   ⟨21600000000, 7 / 2, 1 / 2⟩, ⟨25200000000, 4, 1 / 2⟩, ⟨28800000000, 9 / 2, 1 / 2⟩,
   ⟨32400000000, 5, 1 / 2⟩]

/-- Claim C8, amended: an emitted point's state is the raw value divided by
1000 *in binary64 floating point* (converted exactly to decimal; exact for
values like 500 but not in general), `sum` is the previous sum plus that
state, and Scenario B (ten readings of 500 then an absent-valued window)
commits exactly ten points with final sum 5.0 and none from the second
window. -/
theorem c8_emission_arithmetic (lastTs : Nat) (sum : ℚ) (v : Reading)
    (rest : List Reading) (n : Nat) (h1 : minuteOf v.timestamp = 0)
    (h2 : ¬ v.timestamp < lastTs) (h3 : v.value = some n) :
    processReadings lastTs sum (v :: rest) =
      (processReadings v.timestamp (sum + pyDiv1000 n) rest).map
        (fun r => (⟨v.timestamp, sum + pyDiv1000 n, pyDiv1000 n⟩ :: r.1, r.2)) ∧
    importStatistics scenarioBFetch 172800000000 0 0 = some scenarioBPoints := by
  constructor
  · simp only [processReadings]
    rw [if_neg (by simp [h1]), if_neg h2, h3]
  · decide

/-- Witness for the amended C8 at raw value 100. -/
theorem c8_witness :
    processReadings 0 0 [⟨0, some 100, false⟩] =
      (processReadings 0 (0 + pyDiv1000 100) []).map
        (fun r => (⟨0, 0 + pyDiv1000 100, pyDiv1000 100⟩ :: r.1, r.2)) ∧
    importStatistics scenarioBFetch 172800000000 0 0 = some scenarioBPoints :=
  c8_emission_arithmetic 0 0 ⟨0, some 100, false⟩ [] 100 (by decide) (by decide) rfl

/-- Claim C9: `is_active` is false exactly when both an explicit
`active = false` and an explicit `smartMeterReady = false` are present
(the OR of negated-presence checks at sensor.py:288-293); a true result
never yields the unavailable outcome, and a false result forecloses any
ingestion outcome (neither a commit nor an `_import_statistics` abort can
occur). -/
theorem c9_is_active_policy :
    (∀ zp : ZaehlpunktInfo,
        is_active zp = false ↔ zp.active = some false ∧ zp.smartMeterReady = some false) ∧
    (∀ (fetch : Nat → Window) (zp : ZaehlpunktInfo) (ls : Option (Nat × ℚ))
        (nowUtc localNow : Nat), is_active zp = true →
        asyncUpdate fetch zp ls nowUtc localNow ≠ UpdateOutcome.inactive) ∧
    (∀ (fetch : Nat → Window) (zp : ZaehlpunktInfo) (ls : Option (Nat × ℚ))
        (nowUtc localNow : Nat), is_active zp = false →
        (∀ pts, asyncUpdate fetch zp ls nowUtc localNow ≠ UpdateOutcome.committed pts) ∧
          asyncUpdate fetch zp ls nowUtc localNow ≠ UpdateOutcome.aborted) := by
  refine ⟨?_, ?_, ?_⟩
  · intro zp
    obtain ⟨a, s⟩ := zp
    cases a <;> cases s <;> simp [is_active]
  · intro fetch zp ls nowUtc localNow ha
    cases ls with
    | none => simp [asyncUpdate, callToday]
    | some p =>
      obtain ⟨e, s⟩ := p
      simp only [asyncUpdate]
      split
      · simp
      · simp only [runIngestion, ha, if_true]
        split <;> simp
  · intro fetch zp ls nowUtc localNow ha
    cases ls with
    | none =>
      exact ⟨fun pts => by simp [asyncUpdate, callToday], by simp [asyncUpdate, callToday]⟩
    | some p =>
      obtain ⟨e, s⟩ := p
      constructor
      · intro pts
        simp only [asyncUpdate]
        split
        · simp
        · simp [runIngestion, ha]
      · simp only [asyncUpdate]
        split
        · simp
        · simp [runIngestion, ha]

/-- Witness for C9: a meter with `active = true`, `smartMeterReady = false`
is judged active and is never marked inactive. -/
theorem c9_witness :
    asyncUpdate (fun _ => ⟨Option.none, Option.none, Option.none, Option.none⟩)
      ⟨some true, some false⟩ Option.none 0 0 ≠ UpdateOutcome.inactive :=
  c9_is_active_policy.2.1 (fun _ => ⟨Option.none, Option.none, Option.none, Option.none⟩)
    ⟨some true, some false⟩ Option.none 0 0 (by decide)

/-- A subscript guarded by `is_valid_access` never raises. -/
theorem pySubscript_ok (a : PyVal) (i : Accessor) (h : is_valid_access a i = true) :
    ∃ v, pySubscript a i = Except.ok v := by
  cases a with
  | list xs =>
    cases i with
    | int n =>
      simp only [is_valid_access, decide_eq_true_eq] at h
      exact ⟨xs.get ⟨n, h⟩, by simp [pySubscript, h]⟩
    | str s => simp [is_valid_access] at h
  | dict xs =>
    cases i with
    | int n => simp [is_valid_access] at h
    | str k =>
      simp only [is_valid_access, List.any_eq_true] at h
      obtain ⟨p, hp, hpk⟩ := h
      have hsome : (xs.find? (fun q => decide (q.1 = k))).isSome := by
        rw [List.find?_isSome]
        exact ⟨p, hp, hpk⟩
      obtain ⟨pr, hpr⟩ := Option.isSome_iff_exists.mp hsome
      exact ⟨pr.2, by simp [pySubscript, hpr]⟩
  | none => simp [is_valid_access] at h
  | bool b => simp [is_valid_access] at h
  | int n => simp [is_valid_access] at h
  | str s => simp [is_valid_access] at h

/-- The `reduce` of `dict_path` never raises: each step either follows a
validated access or yields `None`. -/
theorem foldl_dictPathStep_ok (l : List Accessor) :
    ∀ a : PyVal, ∃ v, l.foldl dictPathStep (Except.ok a) = Except.ok v := by
  induction l with
  | nil => intro a; exact ⟨a, rfl⟩
  | cons i rest ih =>
    intro a
    show ∃ v, rest.foldl dictPathStep (dictPathStep (Except.ok a) i) = Except.ok v
    by_cases h : is_valid_access a i = true
    · obtain ⟨w, hw⟩ := pySubscript_ok a i h
      rw [dictPathStep, if_pos h, hw]
      exact ih w
    · rw [dictPathStep, if_neg h]
      exact ih PyVal.none

theorem containsKey_dictSet (xs : List (String × PyVal)) (k2 : String) (v : PyVal)
    (k : String) :
    containsKey (dictSet xs k2 v) k = (containsKey xs k || decide (k2 = k)) := by
  unfold dictSet containsKey
  split
  next hex =>
    rw [List.any_map]
    have hcongr : ((fun p : String × PyVal => decide (p.1 = k)) ∘
        (fun p : String × PyVal => if p.1 = k2 then (k2, v) else p)) =
        fun p : String × PyVal => decide (p.1 = k) := by
      funext p
      by_cases hp : p.1 = k2
      · simp [hp]
      · simp [hp]
    rw [hcongr]
    by_cases hk : k2 = k
    · subst hk
      simp [hex]
    · simp [hk]
  next hex =>
    rw [List.any_append]
    simp

/-- Key membership after the `translate_dict` fold: a key is present iff it
was present initially or some processed attribute put it there. -/
theorem translate_foldl_keys (d : PyVal) :
    ∀ (attrs : List (String × String)) (init : List (String × PyVal)) (k : String),
      containsKey (attrs.foldl (translateStep d) init) k = true ↔
        containsKey init k = true ∨
          ∃ p ∈ attrs, p.2 = k ∧ (dict_path p.1 d).isNone = false := by
  intro attrs
  induction attrs with
  | nil =>
    intro init k
    simp
  | cons sd rest ih =>
    intro init k
    simp only [List.foldl_cons]
    rw [ih]
    show _ ↔ _ ∨ ∃ p ∈ sd :: rest, p.2 = k ∧ (dict_path p.1 d).isNone = false
    by_cases hn : (dict_path sd.1 d).isNone = true
    · have hstep : translateStep d init sd = init := by
        simp only [translateStep]
        rw [if_pos hn]
      rw [hstep]
      constructor
      · rintro (h | ⟨p, hp, hpk, hpn⟩)
        · exact Or.inl h
        · exact Or.inr ⟨p, List.mem_cons_of_mem _ hp, hpk, hpn⟩
      · rintro (h | ⟨p, hp, hpk, hpn⟩)
        · exact Or.inl h
        · rcases List.mem_cons.mp hp with hp | hp
          · subst hp
            rw [hn] at hpn
            exact absurd hpn (by simp)
          · exact Or.inr ⟨p, hp, hpk, hpn⟩
    · have hn2 : (dict_path sd.1 d).isNone = false := by
        revert hn
        cases (dict_path sd.1 d).isNone <;> simp
      have hstep : translateStep d init sd = dictSet init sd.2 (dict_path sd.1 d) := by
        simp only [translateStep]
        rw [if_neg hn]
      rw [hstep, containsKey_dictSet]
      constructor
      · rintro (h | ⟨p, hp, hpk, hpn⟩)
        · rcases Bool.or_eq_true_iff.mp h with h | h
          · exact Or.inl h
          · exact Or.inr ⟨sd, List.mem_cons_self _ _, of_decide_eq_true h, hn2⟩
        · exact Or.inr ⟨p, List.mem_cons_of_mem _ hp, hpk, hpn⟩
      · rintro (h | ⟨p, hp, hpk, hpn⟩)
        · exact Or.inl (by simp [h])
        · rcases List.mem_cons.mp hp with hp | hp
          · subst hp
            exact Or.inl (by simp [hpk])
          · exact Or.inr ⟨p, hp, hpk, hpn⟩

/-- Claim C10: `dict_path`'s reduce always returns (the addressed value or
`None`) without raising — the `is_valid_access` guard forecloses every
exception — and `translate_dict` therefore contains exactly the
destination keys whose source path resolves to a non-`None` value. -/
theorem c10_dict_path_total :
    (∀ (path : String) (d : PyVal),
        ∃ v, dict_path_raw path d = Except.ok v ∧ dict_path path d = v) ∧
    (∀ (d : PyVal) (attrs : List (String × String)) (k : String),
        containsKey (translate_dict d attrs) k = true ↔
          ∃ p ∈ attrs, p.2 = k ∧ (dict_path p.1 d).isNone = false) := by
  constructor
  · intro path d
    obtain ⟨v, hv⟩ := foldl_dictPathStep_ok ((splitDots path).map strint) d
    refine ⟨v, hv, ?_⟩
    simp only [dict_path, dict_path_raw]
    rw [show ((splitDots path).map strint).foldl dictPathStep (Except.ok d) = Except.ok v
      from hv]
  · intro d attrs k
    have h := translate_foldl_keys d attrs [] k
    simp only [translate_dict]
    rw [h]
    simp [containsKey]

/-- Witness for C10: a nested path resolves and its destination key is
present. -/
theorem c10_witness :
    containsKey
      (translate_dict (PyVal.dict [("a", PyVal.list [PyVal.dict [("b", PyVal.int 7)]])])
        [("a.0.b", "dest"), ("missing.x", "other")]) "dest" = true :=
  (c10_dict_path_total.2 (PyVal.dict [("a", PyVal.list [PyVal.dict [("b", PyVal.int 7)]])])
      [("a.0.b", "dest"), ("missing.x", "other")] "dest").mpr
    ⟨("a.0.b", "dest"), by simp, rfl, rfl⟩

end

end Wnsm
